import Mathlib

/-!
Shallow embedding of `src/contactregister/helpers.py`.

Python strings are modelled as `List Char`.  Python's `str.split(sep)`,
`str.split(sep, 1)`, `str.strip()` and `str.strip(chars)` are modelled by
`splitOnChar`, `splitFirst`, `pyStrip` and `pyStripChars` below.  Fallible
code returns `Except PyErr`; interactive input is modelled by an explicit
list of input lines, and the filesystem by an explicit state record.
-/

/-- Python `str.split(sep)` for a one-character separator: `"".split(",")`
yields `[""]`, and separators at the ends produce empty segments. -/
def splitOnChar (sep : Char) : List Char → List (List Char)
  | [] => [[]]
  | x :: xs =>
    match splitOnChar sep xs with
    | [] => [[]]
    | h :: t => if x = sep then [] :: h :: t else (x :: h) :: t

/-- Python `str.split(sep, 1)` for a one-character separator: split at the
first occurrence only, giving one or two parts. -/
def splitFirst (sep : Char) : List Char → List (List Char)
  | [] => [[]]
  | x :: xs =>
    if x = sep then [[], xs] else
      match splitFirst sep xs with
      | [] => [[x]]
      | h :: t => (x :: h) :: t

/-- Characters treated as whitespace by Python `str.strip()` (ASCII range). -/
def isPySpace (c : Char) : Bool :=
  c = ' ' || c = '\t' || c = '\n' || c = '\r' || c = '\x0b' || c = '\x0c'

/-- Python `str.strip()`: drop leading and trailing whitespace. -/
def pyStrip (s : List Char) : List Char :=
  ((s.dropWhile isPySpace).reverse.dropWhile isPySpace).reverse

/-- Python `str.strip(chars)`: drop leading and trailing characters drawn
from the set `chars` (the argument is a character set, not a suffix). -/
def pyStripChars (chars : List Char) (s : List Char) : List Char :=
  ((s.dropWhile (fun c => chars.contains c)).reverse.dropWhile
    (fun c => chars.contains c)).reverse

/-- Test for a leading double underscore, modelling `x.startswith("__")`. -/
def listStartsWith : List Char → List Char → Bool
  | [], _ => true
  | _ :: _, [] => false
  | a :: as, b :: bs => a = b && listStartsWith as bs

/-- Embedding of `get_module_files`.  The directory listing obtained from
`os.listdir` is passed in explicitly; the function filters out names that
start with `"__"` and then applies `filename.strip(".py")` to each
remaining name, exactly as the source does. -/
def get_module_files (listing : List (List Char)) : List (List Char) :=
  (listing.filter (fun x => !(listStartsWith ['_', '_'] x))).map
    (pyStripChars ['.', 'p', 'y'])

/-- Exceptions that the parsing code can raise: the built-in `IndexError`
from an out-of-range list access, and the `MalformedQuery` class declared
in the source (which carries the query string). -/
inductive PyErr where
  | indexError : PyErr
  | malformedQuery : List Char → PyErr
deriving DecidableEq, Repr

/-- The `QueryFilter` container class: a `field` and a `pattern`. -/
structure QueryFilter where
  field : List Char
  pattern : List Char
deriving DecidableEq, Repr

/-- The `QueryFilter.__init__` constructor: both arguments are stripped of
surrounding whitespace before being stored. -/
def QueryFilter.init (field pattern : List Char) : QueryFilter :=
  ⟨pyStrip field, pyStrip pattern⟩

/-- Body of the loop of `parse_query_filters`: each segment is split on the
first `=`; accessing `query_filter[1]` raises `IndexError` when the split
produced a single part.  The loop stops at the first raising segment. -/
def parseSegs : List (List Char) → Except PyErr (List QueryFilter)
  | [] => .ok []
  | seg :: rest =>
    match splitFirst '=' seg with
    | f :: p :: _ =>
      match parseSegs rest with
      | .ok qs => .ok (QueryFilter.init f p :: qs)
      | .error e => .error e
    | _ => .error .indexError

/-- Embedding of `parse_query_filters`: split the query on commas and build
one `QueryFilter` per segment, propagating the `IndexError` raised on a
segment without `=`. -/
def parse_query_filters (query : List Char) : Except PyErr (List QueryFilter) :=
  parseSegs (splitOnChar ',' query)

/-- Reassemble a query string from a list of field/pattern pairs, placing a
`=` inside each segment and a `,` between segments.  This describes the
well-formed inputs of the parser. -/
def joinQuery : List (List Char × List Char) → List Char
  | [] => []
  | [fp] => fp.1 ++ '=' :: fp.2
  | fp :: fp2 :: rest => fp.1 ++ '=' :: fp.2 ++ ',' :: joinQuery (fp2 :: rest)

/-! Basic lemmas about the splitting primitives. -/

theorem splitOnChar_ne_nil (sep : Char) (s : List Char) : splitOnChar sep s ≠ [] := by
  cases s with
  | nil => simp [splitOnChar]
  | cons x xs =>
    cases hsp : splitOnChar sep xs with
    | nil => simp [splitOnChar, hsp]
    | cons h t =>
      simp only [splitOnChar, hsp]
      split <;> simp

theorem splitOnChar_no_sep (sep : Char) (s : List Char) (h : ∀ c ∈ s, c ≠ sep) :
    splitOnChar sep s = [s] := by
  induction s with
  | nil => rfl
  | cons x xs ih =>
    have hx : x ≠ sep := h x (List.mem_cons_self x xs)
    have hxs := ih (fun c hc => h c (List.mem_cons_of_mem x hc))
    simp [splitOnChar, hxs, hx]

theorem splitOnChar_append_sep (sep : Char) (a b : List Char)
    (h : ∀ c ∈ a, c ≠ sep) :
    splitOnChar sep (a ++ sep :: b) = a :: splitOnChar sep b := by
  induction a with
  | nil =>
    cases hsp : splitOnChar sep b with
    | nil => exact absurd hsp (splitOnChar_ne_nil sep b)
    | cons hd tl => simp [splitOnChar, hsp]
  | cons x a ih =>
    have hx : x ≠ sep := h x (List.mem_cons_self x a)
    have ha := ih (fun c hc => h c (List.mem_cons_of_mem x hc))
    simp [splitOnChar, ha, hx]

theorem splitFirst_no_sep (sep : Char) (s : List Char) (h : ∀ c ∈ s, c ≠ sep) :
    splitFirst sep s = [s] := by
  induction s with
  | nil => rfl
  | cons x xs ih =>
    have hx : x ≠ sep := h x (List.mem_cons_self x xs)
    have hxs := ih (fun c hc => h c (List.mem_cons_of_mem x hc))
    simp [splitFirst, hxs, hx]

theorem splitFirst_append_sep (sep : Char) (f p : List Char)
    (h : ∀ c ∈ f, c ≠ sep) :
    splitFirst sep (f ++ sep :: p) = [f, p] := by
  induction f with
  | nil => simp [splitFirst]
  | cons x f ih =>
    have hx : x ≠ sep := h x (List.mem_cons_self x f)
    have hf := ih (fun c hc => h c (List.mem_cons_of_mem x hc))
    simp [splitFirst, hf, hx]

/-! Lemmas about `parseSegs`. -/

theorem parseSegs_missing_eq (segs : List (List Char))
    (h : ∃ s ∈ segs, ∀ c ∈ s, c ≠ '=') :
    parseSegs segs = .error .indexError := by
  induction segs with
  | nil =>
    obtain ⟨s, hs, _⟩ := h
    exact absurd hs (List.not_mem_nil s)
  | cons s rest ih =>
    obtain ⟨t, ht, htno⟩ := h
    rcases List.mem_cons.mp ht with rfl | htr
    · simp [parseSegs, splitFirst_no_sep '=' t htno]
    · cases hsp : splitFirst '=' s with
      | nil => simp [parseSegs, hsp]
      | cons f t2 =>
        cases t2 with
        | nil => simp [parseSegs, hsp]
        | cons p t3 => simp [parseSegs, hsp, ih ⟨t, htr, htno⟩]

theorem seg_no_comma (f p : List Char)
    (h1 : ∀ c ∈ f, c ≠ ',') (h2 : ∀ c ∈ p, c ≠ ',') :
    ∀ c ∈ f ++ '=' :: p, c ≠ ',' := by
  intro c hc
  rcases List.mem_append.mp hc with hf | hp
  · exact h1 c hf
  · rcases List.mem_cons.mp hp with rfl | hp2
    · decide
    · exact h2 c hp2

theorem splitOnChar_joinQuery (fps : List (List Char × List Char))
    (hne : fps ≠ [])
    (h : ∀ fp ∈ fps, (∀ c ∈ fp.1, c ≠ ',') ∧ (∀ c ∈ fp.2, c ≠ ',')) :
    splitOnChar ',' (joinQuery fps) = fps.map (fun fp => fp.1 ++ '=' :: fp.2) := by
  induction fps with
  | nil => exact absurd rfl hne
  | cons fp rest ih =>
    have hfp := h fp (List.mem_cons_self fp rest)
    have hseg := seg_no_comma fp.1 fp.2 hfp.1 hfp.2
    cases rest with
    | nil => simp [joinQuery, splitOnChar_no_sep ',' _ hseg]
    | cons fp2 rest2 =>
      have hassoc : fp.1 ++ '=' :: fp.2 ++ ',' :: joinQuery (fp2 :: rest2)
          = (fp.1 ++ '=' :: fp.2) ++ ',' :: joinQuery (fp2 :: rest2) := by simp
      rw [joinQuery, hassoc, splitOnChar_append_sep ',' _ _ hseg,
        ih (by simp) (fun q hq => h q (List.mem_cons_of_mem fp hq))]
      simp

theorem parseSegs_join (fps : List (List Char × List Char))
    (h : ∀ fp ∈ fps, ∀ c ∈ fp.1, c ≠ '=') :
    parseSegs (fps.map (fun fp => fp.1 ++ '=' :: fp.2))
      = .ok (fps.map (fun fp => QueryFilter.init fp.1 fp.2)) := by
  induction fps with
  | nil => rfl
  | cons fp rest ih =>
    have h1 := h fp (List.mem_cons_self fp rest)
    simp [parseSegs, splitFirst_append_sep '=' fp.1 fp.2 h1,
      ih (fun q hq => h q (List.mem_cons_of_mem fp hq))]

theorem parseSegs_mem_init (segs : List (List Char)) (qs : List QueryFilter)
    (h : parseSegs segs = .ok qs) :
    ∀ q ∈ qs, ∃ f p, q = QueryFilter.init f p := by
  induction segs generalizing qs with
  | nil =>
    simp only [parseSegs, Except.ok.injEq] at h
    subst h
    simp
  | cons s rest ih =>
    rw [parseSegs] at h
    cases hsp : splitFirst '=' s with
    | nil => rw [hsp] at h; cases h
    | cons f t =>
      cases t with
      | nil => rw [hsp] at h; cases h
      | cons p t2 =>
        rw [hsp] at h
        cases hrest : parseSegs rest with
        | error e => rw [hrest] at h; cases h
        | ok qs2 =>
          rw [hrest] at h
          cases h
          intro q hq
          rcases List.mem_cons.mp hq with rfl | hq2
          · exact ⟨f, p, rfl⟩
          · exact ih qs2 hrest q hq2

/-! Idempotence of stripping. -/

theorem pyStrip_eq_rdropWhile (s : List Char) :
    pyStrip s = List.rdropWhile isPySpace (s.dropWhile isPySpace) := rfl

theorem dropWhile_rdropWhile_dropWhile (p : Char → Bool) (s : List Char) :
    List.dropWhile p (List.rdropWhile p (s.dropWhile p))
      = List.rdropWhile p (s.dropWhile p) := by
  obtain ⟨t, htt⟩ := List.rdropWhile_prefix p (s.dropWhile p)
  cases hw : List.rdropWhile p (s.dropWhile p) with
  | nil => simp
  | cons x w =>
    have hax : s.dropWhile p = x :: (w ++ t) := by
      rw [← htt, hw]; simp
    have hidem : List.dropWhile p (s.dropWhile p) = s.dropWhile p :=
      List.dropWhile_idempotent p s
    rw [hax] at hidem
    have hnotx : ¬p x = true := by
      have := List.dropWhile_eq_self_iff.mp hidem (by simp)
      simpa using this
    simp [List.dropWhile_cons, hnotx]

theorem pyStrip_idem (s : List Char) : pyStrip (pyStrip s) = pyStrip s := by
  rw [pyStrip_eq_rdropWhile, pyStrip_eq_rdropWhile,
    dropWhile_rdropWhile_dropWhile, List.rdropWhile_idempotent]

/-! Each claim is now stated and settled. -/

/-- C1 (amended): when some comma-separated segment of the query contains no
`=` character (the empty input included), `parse_query_filters` raises the
built-in `IndexError` from accessing the missing second part of the split;
it does not raise `MalformedQuery`. -/
theorem parse_query_filters_missing_eq (query : List Char)
    (h : ∃ seg ∈ splitOnChar ',' query, ∀ c ∈ seg, c ≠ '=') :
    parse_query_filters query = .error .indexError :=
  parseSegs_missing_eq _ h

/-- C1 witness: at the concrete inputs `"fieldonly"` and `""`, the parser
raises `IndexError`. -/
theorem parse_query_filters_missing_eq_witness :
    parse_query_filters ("fieldonly".data) = .error .indexError ∧
    parse_query_filters [] = .error .indexError :=
  ⟨parse_query_filters_missing_eq ("fieldonly".data)
      ⟨"fieldonly".data, by decide, by decide⟩,
   parse_query_filters_missing_eq [] ⟨[], by decide, by decide⟩⟩

/-- C1 counterexample: on `"fieldonly"` the raised error is `IndexError`,
not the `MalformedQuery` signal carrying the query string that the claim
requires. -/
theorem parse_query_filters_not_malformed_query :
    parse_query_filters ("fieldonly".data) = .error PyErr.indexError ∧
    parse_query_filters ("fieldonly".data)
        ≠ .error (PyErr.malformedQuery ("fieldonly".data)) := by
  constructor
  · rfl
  · intro h
    cases h

/-- C2: on the listing `foo.py`, `bar.py`, `__init__.py` the function does
return `foo` and `bar`, but `strip(".py")` removes a character set, not a
suffix, so `happy.py` becomes `ha` instead of `happy` — contradicting the
stated "filenames stripped of extension" behavior. -/
theorem get_module_files_strip_bug :
    get_module_files ["foo.py".data, "bar.py".data, "__init__.py".data]
        = ["foo".data, "bar".data] ∧
    get_module_files ["happy.py".data] = ["ha".data] ∧
    "ha".data ≠ "happy".data := by
  refine ⟨rfl, rfl, ?_⟩
  intro h
  cases h

/-- C3 (amended): for a well-formed query assembled from non-empty
comma-free field/pattern pairs whose fields also contain no `=`, parsing
returns exactly one filter per pair, in input order, with the stripped
field and pattern of each segment. -/
theorem parse_query_filters_well_formed (fps : List (List Char × List Char))
    (hne : fps ≠ [])
    (h : ∀ fp ∈ fps, fp.1 ≠ [] ∧ fp.2 ≠ [] ∧ (∀ c ∈ fp.1, c ≠ ',') ∧
      (∀ c ∈ fp.2, c ≠ ',') ∧ (∀ c ∈ fp.1, c ≠ '=')) :
    parse_query_filters (joinQuery fps)
      = .ok (fps.map (fun fp => QueryFilter.mk (pyStrip fp.1) (pyStrip fp.2))) := by
  unfold parse_query_filters
  rw [splitOnChar_joinQuery fps hne
    (fun fp hfp => ⟨(h fp hfp).2.2.1, (h fp hfp).2.2.2.1⟩)]
  exact parseSegs_join fps (fun fp hfp => (h fp hfp).2.2.2.2)

/-- C3 witness: `"name=Bob, age = 7"` parses to the two expected trimmed
filters. -/
theorem parse_query_filters_well_formed_witness :
    parse_query_filters
        (joinQuery [("name".data, "Bob".data), (" age ".data, " 7".data)])
      = .ok [⟨"name".data, "Bob".data⟩, ⟨"age".data, "7".data⟩] :=
  (parse_query_filters_well_formed
      [("name".data, "Bob".data), (" age ".data, " 7".data)]
      (by decide) (by decide)).trans rfl

/-- C3 counterexample: the pair `("a=b", "c")` has a non-empty comma-free
field and pattern, yet the query it forms, `"a=b=c"`, parses to the filter
`("a", "b=c")` and not to `("a=b", "c")`: a field containing `=` breaks the
claimed correspondence. -/
theorem parse_query_filters_field_with_eq :
    joinQuery [("a=b".data, "c".data)] = "a=b=c".data ∧
    parse_query_filters ("a=b=c".data) = .ok [⟨"a".data, "b=c".data⟩] ∧
    parse_query_filters ("a=b=c".data) ≠ .ok [⟨"a=b".data, "c".data⟩] := by
  refine ⟨by decide, rfl, ?_⟩
  intro h
  cases h

/-- C4: a segment is split on its first `=` only, so the whole remainder
after the first `=` (which may itself contain `=`) becomes the pattern. -/
theorem parse_query_filters_first_eq (f p : List Char)
    (hf : ∀ c ∈ f, c ≠ '=') (hfc : ∀ c ∈ f, c ≠ ',')
    (hpc : ∀ c ∈ p, c ≠ ',') (hp : '=' ∈ p) :
    parse_query_filters (f ++ '=' :: p)
      = .ok [QueryFilter.mk (pyStrip f) (pyStrip p)] := by
  unfold parse_query_filters
  rw [splitOnChar_no_sep ',' _ (seg_no_comma f p hfc hpc)]
  simp [parseSegs, splitFirst_append_sep '=' f p hf, QueryFilter.init]

/-- C4 witness: `"field=a=b"` yields the single filter with pattern
`"a=b"` in full. -/
theorem parse_query_filters_first_eq_witness :
    parse_query_filters ("field".data ++ '=' :: "a=b".data)
      = .ok [⟨"field".data, "a=b".data⟩] :=
  (parse_query_filters_first_eq ("field".data) ("a=b".data)
    (by decide) (by decide) (by decide) (by decide)).trans rfl

/-- C5: every constructed `QueryFilter` carries stripped attributes: the
attributes are fixed points of stripping, the concrete pair
`(" name ", " Bob ")` becomes `("name", "Bob")`, and every filter returned
by `parse_query_filters` has stripped attributes. -/
theorem QueryFilter_always_trimmed :
    (∀ f p, pyStrip (QueryFilter.init f p).field = (QueryFilter.init f p).field ∧
      pyStrip (QueryFilter.init f p).pattern = (QueryFilter.init f p).pattern) ∧
    QueryFilter.init (" name ".data) (" Bob ".data) = ⟨"name".data, "Bob".data⟩ ∧
    (∀ query qs, parse_query_filters query = .ok qs →
      ∀ q ∈ qs, pyStrip q.field = q.field ∧ pyStrip q.pattern = q.pattern) := by
  refine ⟨fun f p => ⟨pyStrip_idem f, pyStrip_idem p⟩, by decide, ?_⟩
  intro query qs h q hq
  obtain ⟨f, p, rfl⟩ := parseSegs_mem_init _ _ h q hq
  exact ⟨pyStrip_idem f, pyStrip_idem p⟩

/-- C5 witness: the fixed-point property instantiated at
`(" name ", " Bob ")`, and at the filter parsed from `"a=b"`. -/
theorem QueryFilter_always_trimmed_witness :
    pyStrip (QueryFilter.init (" name ".data) (" Bob ".data)).field
        = (QueryFilter.init (" name ".data) (" Bob ".data)).field ∧
    pyStrip (QueryFilter.mk ("a".data) ("b".data)).field = "a".data :=
  ⟨(QueryFilter_always_trimmed.1 (" name ".data) (" Bob ".data)).1,
   (QueryFilter_always_trimmed.2.2 ("a=b".data) [⟨"a".data, "b".data⟩] rfl
      ⟨"a".data, "b".data⟩ (List.mem_cons_self _ _)).1⟩

/-- C6: segments with an `=` but an empty field part or an empty pattern
part do not raise; the corresponding attribute is empty after stripping. -/
theorem parse_query_filters_empty_parts (f p : List Char)
    (hfc : ∀ c ∈ f, c ≠ ',') (hfe : ∀ c ∈ f, c ≠ '=')
    (hpc : ∀ c ∈ p, c ≠ ',') :
    parse_query_filters ('=' :: p) = .ok [QueryFilter.mk [] (pyStrip p)] ∧
    parse_query_filters (f ++ ['=']) = .ok [QueryFilter.mk (pyStrip f) []] := by
  constructor
  · unfold parse_query_filters
    rw [splitOnChar_no_sep ',' ('=' :: p) (seg_no_comma [] p (by simp) hpc)]
    simp [parseSegs, splitFirst, QueryFilter.init, pyStrip]
  · unfold parse_query_filters
    rw [splitOnChar_no_sep ',' (f ++ ['='])
      (seg_no_comma f [] hfc (by simp))]
    simp [parseSegs, splitFirst_append_sep '=' f [] hfe, QueryFilter.init, pyStrip]

/-- C6 witness: `"=pattern"` gives an empty field and `"field="` gives an
empty pattern, with no error raised. -/
theorem parse_query_filters_empty_parts_witness :
    parse_query_filters ('=' :: "pattern".data)
        = .ok [QueryFilter.mk [] (pyStrip ("pattern".data))] ∧
    parse_query_filters ("field".data ++ ['='])
        = .ok [QueryFilter.mk (pyStrip ("field".data)) []] :=
  parse_query_filters_empty_parts ("field".data) ("pattern".data)
    (by decide) (by decide) (by decide)

/-! Embedding of `get_option_selection`.  Interactive input is modelled as
an explicit list of input lines; console output is reduced to the list of
retry messages the loop prints. -/

/-- Check that a run of characters has no two adjacent underscores. -/
def noDoubleUnderscore : List Char → Bool
  | c :: d :: rest => !(c = '_' && d = '_') && noDoubleUnderscore (d :: rest)
  | _ => true

/-- Whether a character run is a valid digit part of a Python integer
literal: non-empty, digits possibly separated by single underscores, and
beginning and ending with a digit. -/
def validIntDigits (l : List Char) : Bool :=
  !l.isEmpty &&
  l.all (fun c => c.isDigit || c = '_') &&
  (match l.head? with | some c => c.isDigit | none => false) &&
  (match l.getLast? with | some c => c.isDigit | none => false) &&
  noDoubleUnderscore l

/-- Numeric value of a digit run once underscores are removed. -/
def digitsToNat (l : List Char) : Nat :=
  (l.filter (fun c => c != '_')).foldl (fun a c => a * 10 + (c.toNat - 48)) 0

/-- Model of Python `int(s)` on a string: strip whitespace, allow one
optional sign, then require a valid digit run; `none` models the
`ValueError` raised otherwise. -/
def pyParseInt (s : List Char) : Option Int :=
  match pyStrip s with
  | '+' :: rest =>
    if validIntDigits rest then some (Int.ofNat (digitsToNat rest)) else none
  | '-' :: rest =>
    if validIntDigits rest then some (-(Int.ofNat (digitsToNat rest))) else none
  | rest =>
    if validIntDigits rest then some (Int.ofNat (digitsToNat rest)) else none

/-- The two retry messages printed by the input loop. -/
inductive RetryMsg where
  | outOfRange : RetryMsg
  | notAnInt : RetryMsg
deriving DecidableEq, Repr

/-- Result of running the loop against a finite input stream: either the
function returned (with the possibly-failing indexing result), or the
stream ran out while the real loop would still be waiting for input. -/
inductive SelOutcome where
  | ret : Option (List Char) → SelOutcome
  | noInput : SelOutcome
deriving DecidableEq, Repr

/-- Embedding of `get_option_selection`: each line is stripped and parsed
as an integer; a parse failure prints the not-an-integer message and
re-prompts, an out-of-range value prints the out-of-range message and
re-prompts, and a value `i` with `-1 < i < len(options)` is returned as
`options[i]`. -/
def get_option_selection (options : List (List Char)) :
    List (List Char) → List RetryMsg × SelOutcome
  | [] => ([], .noInput)
  | line :: rest =>
    match pyParseInt (pyStrip line) with
    | none =>
      (RetryMsg.notAnInt :: (get_option_selection options rest).1,
       (get_option_selection options rest).2)
    | some i =>
      if -1 < i ∧ i < (options.length : Int) then
        ([], .ret (options.get? i.toNat))
      else
        (RetryMsg.outOfRange :: (get_option_selection options rest).1,
         (get_option_selection options rest).2)

/-- The message a single rejected line produces, or `none` for a line the
loop accepts. -/
def lineMsg (options : List (List Char)) (l : List Char) : Option RetryMsg :=
  match pyParseInt (pyStrip l) with
  | none => some RetryMsg.notAnInt
  | some i =>
    if -1 < i ∧ i < (options.length : Int) then none
    else some RetryMsg.outOfRange

theorem gos_cons (options : List (List Char)) (line : List Char)
    (rest : List (List Char)) :
    get_option_selection options (line :: rest) =
      match pyParseInt (pyStrip line) with
      | none =>
        (RetryMsg.notAnInt :: (get_option_selection options rest).1,
         (get_option_selection options rest).2)
      | some i =>
        if -1 < i ∧ i < (options.length : Int) then
          ([], .ret (options.get? i.toNat))
        else
          (RetryMsg.outOfRange :: (get_option_selection options rest).1,
           (get_option_selection options rest).2) := rfl

theorem gos_cons_none (options : List (List Char)) (line : List Char)
    (rest : List (List Char)) (hp : pyParseInt (pyStrip line) = none) :
    get_option_selection options (line :: rest)
      = (RetryMsg.notAnInt :: (get_option_selection options rest).1,
         (get_option_selection options rest).2) := by
  rw [gos_cons, hp]

theorem gos_cons_valid (options : List (List Char)) (line : List Char)
    (rest : List (List Char)) (i : Int)
    (hp : pyParseInt (pyStrip line) = some i)
    (hcond : -1 < i ∧ i < (options.length : Int)) :
    get_option_selection options (line :: rest)
      = ([], .ret (options.get? i.toNat)) := by
  rw [gos_cons, hp]
  show (if -1 < i ∧ i < (options.length : Int) then
      (([] : List RetryMsg), SelOutcome.ret (options.get? i.toNat))
    else
      (RetryMsg.outOfRange :: (get_option_selection options rest).1,
       (get_option_selection options rest).2))
    = ([], SelOutcome.ret (options.get? i.toNat))
  exact if_pos hcond

theorem gos_cons_invalid (options : List (List Char)) (line : List Char)
    (rest : List (List Char)) (i : Int)
    (hp : pyParseInt (pyStrip line) = some i)
    (hcond : ¬(-1 < i ∧ i < (options.length : Int))) :
    get_option_selection options (line :: rest)
      = (RetryMsg.outOfRange :: (get_option_selection options rest).1,
         (get_option_selection options rest).2) := by
  rw [gos_cons, hp]
  show (if -1 < i ∧ i < (options.length : Int) then
      (([] : List RetryMsg), SelOutcome.ret (options.get? i.toNat))
    else
      (RetryMsg.outOfRange :: (get_option_selection options rest).1,
       (get_option_selection options rest).2))
    = (RetryMsg.outOfRange :: (get_option_selection options rest).1,
       (get_option_selection options rest).2)
  exact if_neg hcond

theorem gos_snd_ret (options : List (List Char)) (inputs : List (List Char))
    (v : Option (List Char))
    (h : (get_option_selection options inputs).2 = SelOutcome.ret v) :
    ∃ s, v = some s := by
  induction inputs with
  | nil => exact absurd h (by simp [get_option_selection])
  | cons line rest ih =>
    cases hp : pyParseInt (pyStrip line) with
    | none =>
      rw [gos_cons_none options line rest hp] at h
      exact ih h
    | some i =>
      by_cases hcond : -1 < i ∧ i < (options.length : Int)
      · rw [gos_cons_valid options line rest i hp hcond] at h
        have h3 : SelOutcome.ret (options.get? i.toNat) = SelOutcome.ret v := h
        have h0 : (0 : Int) ≤ i := by omega
        have hi : i.toNat < options.length := by
          have h2 : (i.toNat : Int) < (options.length : Int) := by
            rw [Int.toNat_of_nonneg h0]; exact hcond.2
          exact_mod_cast h2
        cases h3
        exact ⟨options.get ⟨i.toNat, hi⟩, List.get?_eq_get hi⟩
      · rw [gos_cons_invalid options line rest i hp hcond] at h
        exact ih h

theorem gos_empty_options (inputs : List (List Char)) :
    (get_option_selection [] inputs).2 = SelOutcome.noInput := by
  induction inputs with
  | nil => rfl
  | cons line rest ih =>
    cases hp : pyParseInt (pyStrip line) with
    | none =>
      rw [gos_cons_none [] line rest hp]
      exact ih
    | some i =>
      have hno : ¬(-1 < i ∧ i < (([] : List (List Char)).length : Int)) := by
        simp only [List.length_nil, Nat.cast_zero]
        omega
      rw [gos_cons_invalid [] line rest i hp hno]
      exact ih

/-- C10: whenever the loop returns, the accepted index was inside
`[0, len(options))`, so the final indexing never faults; with an empty
options list no input line is ever accepted and the loop never returns. -/
theorem get_option_selection_index_safe :
    (∀ options inputs ms v,
      get_option_selection options inputs = (ms, SelOutcome.ret v) →
        ∃ s, v = some s) ∧
    (∀ inputs : List (List Char),
      (get_option_selection [] inputs).2 = SelOutcome.noInput) := by
  constructor
  · intro options inputs ms v h
    exact gos_snd_ret options inputs v (by rw [h])
  · exact gos_empty_options

/-- C10 witness: with options `["a"]` and input `"0"` the returned value
is a real element, and with no options the same input is never accepted. -/
theorem get_option_selection_index_safe_witness :
    (∃ s, (some ("a".data) : Option (List Char)) = some s) ∧
    (get_option_selection [] ["0".data]).2 = SelOutcome.noInput :=
  ⟨get_option_selection_index_safe.1 ["a".data] ["0".data] [] (some ("a".data))
      rfl,
   get_option_selection_index_safe.2 ["0".data]⟩

/-- C7: when every earlier line is rejected (each with its message: the
out-of-range message for in-bounds-failing integers, the not-an-integer
message for unparsable lines) and a line parses to an integer `i` with
`0 ≤ i < len(options)`, the loop prints exactly one message per earlier
line, in order, and returns `options[i]`. -/
theorem get_option_selection_first_valid (options pre : List (List Char))
    (line : List Char) (rest : List (List Char)) (i : Int)
    (hpre : ∀ l ∈ pre, lineMsg options l ≠ none)
    (hline : pyParseInt (pyStrip line) = some i)
    (h0 : 0 ≤ i) (hi : i.toNat < options.length) :
    get_option_selection options (pre ++ line :: rest)
      = (pre.filterMap (lineMsg options),
         SelOutcome.ret (some (options.get ⟨i.toNat, hi⟩))) := by
  induction pre with
  | nil =>
    have hcond : -1 < i ∧ i < (options.length : Int) := by
      refine ⟨by omega, ?_⟩
      have h2 : (i.toNat : Int) < (options.length : Int) := by exact_mod_cast hi
      rwa [Int.toNat_of_nonneg h0] at h2
    rw [List.nil_append, gos_cons_valid options line rest i hline hcond,
      List.get?_eq_get hi]
    rfl
  | cons l pre ih =>
    have hl := hpre l (List.mem_cons_self l pre)
    have ihh := ih (fun x hx => hpre x (List.mem_cons_of_mem l hx))
    rw [List.cons_append]
    cases hp : pyParseInt (pyStrip l) with
    | none =>
      have hm : lineMsg options l = some RetryMsg.notAnInt := by
        unfold lineMsg
        rw [hp]
      rw [gos_cons_none options l (pre ++ line :: rest) hp, ihh,
        List.filterMap_cons, hm]
    | some j =>
      have hcond : ¬(-1 < j ∧ j < (options.length : Int)) := by
        intro hc
        apply hl
        unfold lineMsg
        rw [hp]
        show (if -1 < j ∧ j < (options.length : Int) then none
          else some RetryMsg.outOfRange) = none
        exact if_pos hc
      have hm : lineMsg options l = some RetryMsg.outOfRange := by
        unfold lineMsg
        rw [hp]
        show (if -1 < j ∧ j < (options.length : Int) then none
          else some RetryMsg.outOfRange) = some RetryMsg.outOfRange
        exact if_neg hcond
      rw [gos_cons_invalid options l (pre ++ line :: rest) j hp hcond, ihh,
        List.filterMap_cons, hm]

/-- C7 witness: options `["a","b","c"]` with inputs `"5"` then `"1"`
re-prompt once with the out-of-range message and return `"b"`. -/
theorem get_option_selection_first_valid_witness :
    get_option_selection ["a".data, "b".data, "c".data] ["5".data, "1".data]
      = ([RetryMsg.outOfRange], SelOutcome.ret (some ("b".data))) := by
  have h := get_option_selection_first_valid
    ["a".data, "b".data, "c".data] ["5".data] ("1".data) [] 1
    (by decide) (by decide) (by decide) (by decide)
  exact h

/-! Embedding of `try_create_dir`.  The filesystem is modelled as explicit
state: the sets of existing directories and regular files, with paths as
component lists (the empty path is the always-existing root). -/

/-- Error conditions `os.makedirs` can raise, identified by errno. -/
inductive OSErr where
  | EEXIST : OSErr
  | ENOTDIR : OSErr
  | ENOENT : OSErr
  | EACCES : OSErr
deriving DecidableEq, Repr

/-- A filesystem path, as a list of name components. -/
abbrev FsPath := List (List Char)

/-- Filesystem state: which directories and which regular files exist. -/
structure FS where
  dirs : List FsPath
  files : List FsPath
deriving DecidableEq, Repr

/-- Whether `p` exists as a directory (the root always does). -/
def isDir (fs : FS) (p : FsPath) : Bool :=
  p.isEmpty || decide (p ∈ fs.dirs)

/-- Whether `p` exists as a regular file. -/
def isFile (fs : FS) (p : FsPath) : Bool :=
  decide (p ∈ fs.files)

/-- Whether `p` exists at all, as in `os.path.exists`. -/
def pathExists (fs : FS) (p : FsPath) : Bool :=
  isDir fs p || isFile fs p

/-- Model of `os.mkdir`: fails with `EEXIST` when the target exists (as a
directory or a file), with `ENOTDIR` when the parent is a regular file,
and with `ENOENT` when the parent is missing. -/
def mkdir (fs : FS) (p : FsPath) : Except OSErr FS :=
  if pathExists fs p = true then .error .EEXIST
  else if isFile fs p.dropLast = true then .error .ENOTDIR
  else if isDir fs p.dropLast = false then .error .ENOENT
  else .ok ⟨p :: fs.dirs, fs.files⟩

/-- Recursion of `os.makedirs`, structured on a fuel argument that bounds
the number of path components: create the missing ancestors first (only
when the parent is non-trivial and does not yet exist), then `mkdir` the
target, which raises `EEXIST` when the target already exists. -/
def makedirsAux (fs : FS) (p : FsPath) : Nat → Except OSErr FS
  | 0 => .error .EEXIST
  | fuel + 1 =>
    if p.dropLast ≠ [] ∧ pathExists fs p.dropLast = false then
      match makedirsAux fs p.dropLast fuel with
      | .ok fs1 => mkdir fs1 p
      | .error e => .error e
    else mkdir fs p

/-- Model of `os.makedirs`: the component count of the path bounds the
recursion depth, so it serves as the fuel. -/
def makedirs (fs : FS) (p : FsPath) : Except OSErr FS :=
  makedirsAux fs p p.length

theorem makedirs_nil (fs : FS) : makedirs fs [] = .error .EEXIST := rfl

theorem makedirs_unfold (fs : FS) (p : FsPath) (hne : p ≠ []) :
    makedirs fs p =
      if p.dropLast ≠ [] ∧ pathExists fs p.dropLast = false then
        match makedirs fs p.dropLast with
        | .ok fs1 => mkdir fs1 p
        | .error e => .error e
      else mkdir fs p := by
  unfold makedirs
  cases hl : p.length with
  | zero => exact absurd (List.length_eq_zero.mp hl) hne
  | succ n =>
    have hn : p.dropLast.length = n := by
      rw [List.length_dropLast, hl]
      omega
    simp only [makedirsAux]
    rw [hn]

/-- Embedding of `try_create_dir`: run `os.makedirs` and suppress exactly
the `EEXIST` failure; any other error propagates unchanged. -/
def try_create_dir (fs : FS) (p : FsPath) : Except OSErr FS :=
  match makedirs fs p with
  | .ok fs1 => .ok fs1
  | .error e => if e = OSErr.EEXIST then .ok fs else .error e

/-- Well-formed filesystem state: every recorded path is non-empty and has
its parent present as a directory (trivially so for top-level entries). -/
def WF (fs : FS) : Prop :=
  (∀ p ∈ fs.dirs, p ≠ [] ∧ (p.dropLast = [] ∨ p.dropLast ∈ fs.dirs)) ∧
  (∀ p ∈ fs.files, p ≠ [] ∧ (p.dropLast = [] ∨ p.dropLast ∈ fs.dirs))

theorem try_create_dir_of_makedirs_ok (fs : FS) (p : FsPath) (fs1 : FS)
    (h : makedirs fs p = .ok fs1) : try_create_dir fs p = .ok fs1 := by
  unfold try_create_dir
  rw [h]

theorem try_create_dir_of_makedirs_eexist (fs : FS) (p : FsPath)
    (h : makedirs fs p = .error .EEXIST) : try_create_dir fs p = .ok fs := by
  unfold try_create_dir
  rw [h]
  rfl

theorem try_create_dir_of_makedirs_error (fs : FS) (p : FsPath) (e : OSErr)
    (h : makedirs fs p = .error e) (hne : e ≠ OSErr.EEXIST) :
    try_create_dir fs p = .error e := by
  unfold try_create_dir
  rw [h]
  exact if_neg hne

theorem makedirs_exists (fs : FS) (p : FsPath) (hne : p ≠ [])
    (hpar : isDir fs p.dropLast = true) (hex : pathExists fs p = true) :
    makedirs fs p = .error .EEXIST := by
  rw [makedirs_unfold fs p hne]
  have hpe : pathExists fs p.dropLast = true := by
    unfold pathExists
    rw [hpar]
    rfl
  have hguard : ¬(p.dropLast ≠ [] ∧ pathExists fs p.dropLast = false) := by
    intro hc
    rw [hpe] at hc
    exact absurd hc.2 (by simp)
  rw [if_neg hguard]
  unfold mkdir
  rw [if_pos hex]

theorem makedirs_ok_last_step (fs : FS) (p : FsPath) (fs1 : FS)
    (h : makedirs fs p = .ok fs1) : ∃ fs0, mkdir fs0 p = .ok fs1 := by
  by_cases hp : p = []
  · subst hp
    rw [makedirs_nil] at h
    cases h
  · rw [makedirs_unfold fs p hp] at h
    by_cases hg : p.dropLast ≠ [] ∧ pathExists fs p.dropLast = false
    · rw [if_pos hg] at h
      cases hrec : makedirs fs p.dropLast with
      | ok fs2 =>
        rw [hrec] at h
        exact ⟨fs2, h⟩
      | error e =>
        rw [hrec] at h
        cases h
    · rw [if_neg hg] at h
      exact ⟨fs, h⟩

theorem mkdir_ok_props (fs0 : FS) (p : FsPath) (fs1 : FS)
    (h : mkdir fs0 p = .ok fs1) :
    fs1 = ⟨p :: fs0.dirs, fs0.files⟩ ∧ isDir fs0 p.dropLast = true ∧
      pathExists fs0 p = false := by
  unfold mkdir at h
  by_cases h1 : pathExists fs0 p = true
  · rw [if_pos h1] at h
    cases h
  · rw [if_neg h1] at h
    by_cases h2 : isFile fs0 p.dropLast = true
    · rw [if_pos h2] at h
      cases h
    · rw [if_neg h2] at h
      by_cases h3 : isDir fs0 p.dropLast = false
      · rw [if_pos h3] at h
        cases h
      · rw [if_neg h3] at h
        injection h with h4
        refine ⟨h4.symm, ?_, ?_⟩
        · cases hb : isDir fs0 p.dropLast
          · exact absurd hb h3
          · rfl
        · cases hb : pathExists fs0 p
          · rfl
          · exact absurd hb h1

theorem makedirs_ok_props (fs : FS) (p : FsPath) (fs1 : FS)
    (h : makedirs fs p = .ok fs1) :
    p ∈ fs1.dirs ∧ isDir fs1 p.dropLast = true ∧ p ≠ [] := by
  obtain ⟨fs0, hstep⟩ := makedirs_ok_last_step fs p fs1 h
  obtain ⟨hfs1, hpar, hnex⟩ := mkdir_ok_props fs0 p fs1 hstep
  subst hfs1
  refine ⟨List.mem_cons_self p fs0.dirs, ?_, ?_⟩
  · unfold isDir at hpar ⊢
    rcases Bool.or_eq_true_iff.mp hpar with h5 | h5
    · rw [h5]
      rfl
    · have h6 : p.dropLast ∈ fs0.dirs := of_decide_eq_true h5
      have h7 : p.dropLast ∈ p :: fs0.dirs := List.mem_cons_of_mem p h6
      simp [h7]
  · intro hnil
    subst hnil
    simp [pathExists, isDir] at hnex

theorem try_create_dir_ok_inv (fs : FS) (p : FsPath) (fs1 : FS)
    (h : try_create_dir fs p = .ok fs1) :
    makedirs fs p = .ok fs1 ∨
      (makedirs fs p = .error .EEXIST ∧ fs1 = fs) := by
  unfold try_create_dir at h
  cases hmk : makedirs fs p with
  | ok fs2 =>
    rw [hmk] at h
    have h2 : (Except.ok fs2 : Except OSErr FS) = Except.ok fs1 := h
    injection h2 with h3
    subst h3
    exact Or.inl rfl
  | error e =>
    rw [hmk] at h
    have h2 : (if e = OSErr.EEXIST then (Except.ok fs : Except OSErr FS)
        else Except.error e) = Except.ok fs1 := h
    by_cases he : e = OSErr.EEXIST
    · rw [if_pos he] at h2
      injection h2 with h3
      subst he
      exact Or.inr ⟨rfl, h3.symm⟩
    · rw [if_neg he] at h2
      cases h2

theorem try_create_dir_exists_dir (fs : FS) (p : FsPath) (hwf : WF fs)
    (hd : p ∈ fs.dirs) : try_create_dir fs p = .ok fs := by
  obtain ⟨hne, hpar⟩ := hwf.1 p hd
  have hpard : isDir fs p.dropLast = true := by
    unfold isDir
    rcases hpar with h1 | h1
    · rw [h1]
      rfl
    · simp [h1]
  have hex : pathExists fs p = true := by
    simp [pathExists, isDir, hd]
  exact try_create_dir_of_makedirs_eexist fs p
    (makedirs_exists fs p hne hpard hex)

theorem try_create_dir_twice (fs : FS) (p : FsPath) (fs1 : FS)
    (h : try_create_dir fs p = .ok fs1) : try_create_dir fs1 p = .ok fs1 := by
  rcases try_create_dir_ok_inv fs p fs1 h with hmk | ⟨hmk, rfl⟩
  · obtain ⟨hmem, hpar, hne⟩ := makedirs_ok_props fs p fs1 hmk
    have hex : pathExists fs1 p = true := by
      simp [pathExists, isDir, hmem]
    exact try_create_dir_of_makedirs_eexist fs1 p
      (makedirs_exists fs1 p hne hpar hex)
  · exact try_create_dir_of_makedirs_eexist fs1 p hmk

/-- C8: on a well-formed filesystem an already-existing target directory is
not an error (the call succeeds silently and leaves the state unchanged);
a successful call followed by a second call on the same path succeeds both
times; and any `makedirs` failure other than `EEXIST` propagates to the
caller unchanged, not wrapped. -/
theorem try_create_dir_error_handling :
    (∀ fs p, WF fs → p ∈ fs.dirs → try_create_dir fs p = .ok fs) ∧
    (∀ fs p fs1, try_create_dir fs p = .ok fs1 →
      try_create_dir fs1 p = .ok fs1) ∧
    (∀ fs p e, makedirs fs p = .error e → e ≠ OSErr.EEXIST →
      try_create_dir fs p = .error e) :=
  ⟨try_create_dir_exists_dir, try_create_dir_twice,
   try_create_dir_of_makedirs_error⟩

/-- C8 witness: an existing directory `d` is re-created silently; creating
the nested path `a/b` from an empty filesystem succeeds and so does the
immediate second call; creating `f/x` under the regular file `f` fails
with the propagated `ENOTDIR` system error. -/
theorem try_create_dir_error_handling_witness :
    try_create_dir ⟨[["d".data]], []⟩ ["d".data] = .ok ⟨[["d".data]], []⟩ ∧
    try_create_dir ⟨[["a".data, "b".data], ["a".data]], []⟩
        ["a".data, "b".data]
      = .ok ⟨[["a".data, "b".data], ["a".data]], []⟩ ∧
    try_create_dir ⟨[], [["f".data]]⟩ ["f".data, "x".data]
      = .error OSErr.ENOTDIR :=
  ⟨try_create_dir_error_handling.1 ⟨[["d".data]], []⟩ ["d".data]
      ⟨by decide, by decide⟩ (by decide),
   try_create_dir_error_handling.2.1 ⟨[], []⟩ ["a".data, "b".data]
      ⟨[["a".data, "b".data], ["a".data]], []⟩ rfl,
   try_create_dir_error_handling.2.2 ⟨[], [["f".data]]⟩
      ["f".data, "x".data] OSErr.ENOTDIR rfl (by decide)⟩

/-- C9: on a well-formed filesystem whose entry at `p` is a regular file,
`try_create_dir` also succeeds silently — `makedirs` raises `EEXIST` for
the existing file and the handler suppresses every `EEXIST` — returning
with the filesystem unchanged, no directory created. -/
theorem try_create_dir_existing_file (fs : FS) (p : FsPath) (hwf : WF fs)
    (hf : isFile fs p = true) : try_create_dir fs p = .ok fs := by
  have hmem : p ∈ fs.files := of_decide_eq_true hf
  obtain ⟨hne, hpar⟩ := hwf.2 p hmem
  have hpard : isDir fs p.dropLast = true := by
    unfold isDir
    rcases hpar with h1 | h1
    · rw [h1]
      rfl
    · simp [h1]
  have hex : pathExists fs p = true := by
    simp [pathExists, isFile, hmem]
  exact try_create_dir_of_makedirs_eexist fs p
    (makedirs_exists fs p hne hpard hex)

/-- C9 witness: with `f` existing as a regular file, creating directory
`f` returns success and leaves the filesystem unchanged. -/
theorem try_create_dir_existing_file_witness :
    try_create_dir ⟨[], [["f".data]]⟩ ["f".data] = .ok ⟨[], [["f".data]]⟩ :=
  try_create_dir_existing_file ⟨[], [["f".data]]⟩ ["f".data]
    ⟨by decide, by decide⟩ (by decide)
